import Mathlib

/-!
Verification of the deterministic natural-language aggregation resolver
implemented in `server/scripts/nl_aggregate.py` and (in near-duplicate form)
in `server/scripts/pandasai_query.py`.

The Python scripts are shallowly embedded: each helper of the scripts becomes
a Lean definition over an explicit tabular data model.  Machine floats of the
source are modelled by exact rationals (all values exercised by the claims
are exactly representable), Python byte/str case folding is modelled on the
ASCII range (all inputs exercised are ASCII), and `pandas` coercions are
modelled on the value forms that can actually occur in the JSON row records
(numbers, strings, missing).
-/

/-- ASCII model of Python's whitespace class used by the regex `\s` and by
`str.strip()`: space, tab, newline, carriage return, vertical tab, form feed. -/
def isSpace (c : Char) : Bool :=
  c = ' ' || c = '\t' || c = '\n' || c = '\r' || c = '\x0b' || c = '\x0c'

/-- The regex digit class `\d` (ASCII model): the characters 0-9. -/
def isDigit (c : Char) : Bool :=
  48 ≤ c.toNat && c.toNat ≤ 57

/-- ASCII model of Python's `str.lower()` applied to one character:
uppercase A-Z is shifted down by 32, every other character is kept. -/
def lowerChar (c : Char) : Char :=
  if 65 ≤ c.toNat ∧ c.toNat ≤ 90 then Char.ofNat (c.toNat + 32) else c

/-- The character class kept by `re.sub(r"[^a-z0-9]", "", ...)`:
lowercase letters and digits. -/
def isKept (c : Char) : Bool :=
  (97 ≤ c.toNat && c.toNat ≤ 122) || (48 ≤ c.toNat && c.toNat ≤ 57)

/-- `normalize_name(name) = re.sub(r"[^a-z0-9]", "", str(name).lower())`:
lowercase the string, then strip every character that is not a lowercase
letter or a digit. -/
def normalizeName (s : String) : String :=
  String.mk ((s.data.map lowerChar).filter isKept)

/-- `hasPre p l` is true when `p` is a prefix of the character list `l`
(plain structural comparison). -/
def hasPre : List Char → List Char → Bool
  | [], _ => true
  | _ :: _, [] => false
  | p :: ps, c :: cs => p == c && hasPre ps cs

/-- `containsSub pat l` is true when `pat` occurs as a contiguous substring
of `l`; it models Python's `pat in l` membership test on strings. -/
def containsSub (pat : List Char) : List Char → Bool
  | [] => pat.isEmpty
  | c :: rest => hasPre pat (c :: rest) || containsSub pat rest

/-- `int(digit string)`: fold decimal digits into a natural number. -/
def natOfDigits (l : List Char) : ℕ :=
  l.foldl (fun n c => 10 * n + (c.toNat - 48)) 0

/-! ## Tabular data model

A row of the loaded JSON array is a record mapping column names to scalar
values; `pd.DataFrame(data)` derives the column list from the union of keys
in first-appearance order and fills missing keys with NaN (here `vNull`). -/

/-- A scalar cell value of the loaded JSON rows: a number, a string, or
null/missing (also standing for pandas NaN). -/
inductive Value
  | vNum : ℚ → Value
  | vStr : String → Value
  | vNull : Value
deriving DecidableEq

/-- One JSON row record: an association list from column name to value. -/
abbrev Row := List (String × Value)

/-- `df[c]` evaluated at one row: the stored value, NaN (`vNull`) when the
row lacks the key. -/
def cellValue (c : String) (r : Row) : Value :=
  match r.lookup c with
  | some v => v
  | none => .vNull

/-- Order-preserving deduplication with an accumulator of already-seen
elements. -/
def dedupSeen {α : Type} [DecidableEq α] (seen : List α) : List α → List α
  | [] => []
  | x :: xs => if x ∈ seen then dedupSeen seen xs else x :: dedupSeen (x :: seen) xs

/-- Keep the first occurrence of every element, preserving order (models
`pandas.Series.unique` and the first-appearance column order of
`pd.DataFrame`). -/
def dedupFirst {α : Type} [DecidableEq α] (l : List α) : List α :=
  dedupSeen [] l

/-- `df.columns`: the union of row keys in order of first appearance. -/
def colsOf (rows : List Row) : List String :=
  dedupFirst (rows.flatMap (fun r => r.map Prod.fst))

/-- Decimal-literal model of `pd.to_numeric(..., errors="coerce")` on an
unsigned string: digits with an optional fractional part.  Scientific
notation and other exotic forms are treated as non-coercible (none occur in
the data exercised by the claims). -/
def parseUnsigned (l : List Char) : Option ℚ :=
  let ip := l.takeWhile isDigit
  match l.drop ip.length with
  | [] => if ip.isEmpty then none else some (natOfDigits ip : ℚ)
  | '.' :: fp =>
      if fp.all isDigit && !(ip.isEmpty && fp.isEmpty) then
        some ((natOfDigits ip : ℚ) + (natOfDigits fp : ℚ) / ((10 : ℚ) ^ fp.length))
      else none
  | _ => none

/-- Signed decimal-literal string coercion (see `parseUnsigned`). -/
def parseNumStr (l : List Char) : Option ℚ :=
  match l with
  | '-' :: r => (parseUnsigned r).map (fun q => -q)
  | '+' :: r => parseUnsigned r
  | _ => parseUnsigned l

/-- `pd.to_numeric(value, errors="coerce")` on one cell: numbers pass
through, numeric strings are parsed, everything else becomes NaN (`none`). -/
def toNumeric : Value → Option ℚ
  | .vNum q => some q
  | .vStr s => parseNumStr s.data
  | .vNull => none

/-- Floor of a rational as an integer (`num.fdiv den`; the denominator of a
normalized `Rat` is positive). -/
def ratFloor (q : ℚ) : ℤ :=
  Int.fdiv q.num q.den

/-- Truncation toward zero, the behaviour of numpy `astype(int)` on floats. -/
def ratTrunc (q : ℚ) : ℤ :=
  if q < 0 then -(ratFloor (-q)) else ratFloor q

/-- Python float `%` with a positive modulus: `a - b * (a // b)` where `//`
floors. -/
def qmod (a b : ℚ) : ℚ :=
  a - b * ((ratFloor (a / b) : ℤ) : ℚ)

/-- Mean of a list of rationals; `none` models the NaN mean of an empty
(all-NaN-dropped) series. -/
def meanOpt (l : List ℚ) : Option ℚ :=
  match l with
  | [] => none
  | _ => some (l.sum / (l.length : ℚ))

/-! ## Output formatting -/

/-- Left-pad the decimal rendering of `n` with zeros to width `w` (Python's
`{n:0wd}` for nonnegative `n`). -/
def padz (w : ℕ) (n : ℕ) : String :=
  String.mk (List.replicate (w - (toString n).length) '0') ++ toString n

/-- Lines 118-121 of `nl_aggregate.py` (and 125-128 of `pandasai_query.py`):
`h = int(avg // 3600); m = int((avg % 3600) // 60); s = int(avg % 60)`
rendered as `f"{h:01d}:{m:02d}:{s:02d}"` — hours unpadded, minutes and
seconds zero-padded to two digits, fractional second truncated at this
final step. -/
def formatDuration (avg : ℚ) : String :=
  let h : ℤ := ratFloor (avg / 3600)
  let m : ℕ := (ratFloor (qmod avg 3600 / 60)).toNat
  let s : ℕ := (ratFloor (qmod avg 60)).toNat
  toString h ++ ":" ++ padz 2 m ++ ":" ++ padz 2 s

/-- Round a rational to the nearest integer, ties to even (the rounding used
by Python's fixed-point float formatting). -/
def roundHalfEven (x : ℚ) : ℤ :=
  let f := ratFloor x
  let r := x - (f : ℚ)
  if r < 1 / 2 then f
  else if 1 / 2 < r then f + 1
  else if f % 2 = 0 then f else f + 1

/-- `f"{x:.4f}"` for a nonnegative value: scale by 10^4, round half to even,
and print with exactly four decimal digits. -/
def format4nn (q : ℚ) : String :=
  let n : ℕ := (roundHalfEven (q * 10000)).toNat
  toString (n / 10000) ++ "." ++ padz 4 (n % 10000)

/-- `f"{x:.4f}"`: sign followed by the nonnegative rendering.  This models
CPython float formatting exactly on values whose mean is exactly
representable (all values exercised by the claims). -/
def format4 (q : ℚ) : String :=
  if q < 0 then "-" ++ format4nn (-q) else format4nn q

/-! ## Question Parser

Embedding of `re.search(r"average\s+(.+?)\s+for\s+the\s+past\s+(\d+)\s+years?",
question, re.IGNORECASE)` followed by `m.group(1).strip()` and
`int(m.group(2))`.  The search tries match start positions left to right; at
a given start, the leading `\s+` is greedy, the captured `(.+?)` is lazy, and
everything after the capture is deterministic maximal munch (each `\s+` and
the `\d+` are followed by a character they cannot match, so no further
backtracking can arise there; the trailing optional `s` only extends the
match span and affects neither success nor the captured groups). -/

/-- Case-insensitive literal matcher: `lit` is given lowercase, input
characters are folded with `lowerChar` (model of `re.IGNORECASE`). -/
def stripCI : List Char → List Char → Option (List Char)
  | [], cs => some cs
  | _ :: _, [] => none
  | l :: ls, c :: cs => if lowerChar c = l then stripCI ls cs else none

/-- `\s+` with maximal munch: at least one whitespace character, then all
following whitespace. -/
def dropSpaces1 (cs : List Char) : Option (List Char) :=
  match cs with
  | c :: rest => if isSpace c then some (rest.dropWhile isSpace) else none
  | [] => none

/-- `(\d+)` with maximal munch: the nonempty leading digit run and the rest. -/
def digits1 (cs : List Char) : Option (List Char × List Char) :=
  let ds := cs.takeWhile isDigit
  if ds.isEmpty then none else some (ds, cs.dropWhile isDigit)

/-- The pattern tail after the captured phrase:
`\s+for\s+the\s+past\s+(\d+)\s+years?`.  Returns the digit group. -/
def tailMatch (cs : List Char) : Option (List Char) :=
  (dropSpaces1 cs).bind fun r1 =>
  (stripCI ['f', 'o', 'r'] r1).bind fun r2 =>
  (dropSpaces1 r2).bind fun r3 =>
  (stripCI ['t', 'h', 'e'] r3).bind fun r4 =>
  (dropSpaces1 r4).bind fun r5 =>
  (stripCI ['p', 'a', 's', 't'] r5).bind fun r6 =>
  (dropSpaces1 r6).bind fun r7 =>
  (digits1 r7).bind fun dr =>
  (dropSpaces1 dr.2).bind fun r9 =>
  (stripCI ['y', 'e', 'a', 'r'] r9).map fun _ => dr.1

/-- Lazy expansion of the captured `(.+?)`: try the shortest nonempty
capture first, extending one character at a time; `.` does not match a
newline. -/
def tryG1 (acc : List Char) : List Char → Option (List Char × List Char)
  | [] => none
  | c :: rest =>
    if c = '\n' then none
    else
      match tailMatch rest with
      | some ds => some (acc ++ [c], ds)
      | none => tryG1 (acc ++ [c]) rest

/-- Greedy backtracking over the length of the leading `\s+`: try consuming
`k` whitespace characters for `k` from the maximum down to 1. -/
def tryS1 : ℕ → List Char → Option (List Char × List Char)
  | 0, _ => none
  | k + 1, rest =>
    match tryG1 [] (rest.drop (k + 1)) with
    | some r => some r
    | none => tryS1 k rest

/-- Attempt a match anchored at the current position: the literal
`average`, then the backtracking body. -/
def matchAt (cs : List Char) : Option (List Char × List Char) :=
  match stripCI ['a', 'v', 'e', 'r', 'a', 'g', 'e'] cs with
  | none => none
  | some rest => tryS1 (rest.takeWhile isSpace).length rest

/-- `re.search`: try match start positions left to right. -/
def searchQ : List Char → Option (List Char × List Char)
  | [] => none
  | c :: rest =>
    match matchAt (c :: rest) with
    | some r => some r
    | none => searchQ rest

/-- Python `str.strip()`: drop whitespace from both ends. -/
def stripEnds (l : List Char) : List Char :=
  ((l.dropWhile isSpace).reverse.dropWhile isSpace).reverse

/-- The full Question Parser of lines 48-54 of `nl_aggregate.py`:
`(target_phrase, years_back)` on a match, `none` otherwise. -/
def parseQuestion (q : String) : Option (String × ℕ) :=
  (searchQ q.data).map fun pr => (String.mk (stripEnds pr.1), natOfDigits pr.2)

/-! ## Schema Typer (year-column detection), Column Resolver, Temporal
Filter, Aggregator, and the deterministic pipeline of `nl_aggregate.py`. -/

/-- The characters of the literal `"year"`. -/
def yearChars : List Char := ['y', 'e', 'a', 'r']

/-- The characters of the literal `"time"`. -/
def timeChars : List Char := ['t', 'i', 'm', 'e']

/-- First pass of year-column detection: `"year" in normalize_name(c)`. -/
def yearName (c : String) : Bool :=
  containsSub yearChars (normalizeName c).data

/-- The numerically coercible values of column `c`
(`pd.to_numeric(df[c], errors="coerce").dropna()`). -/
def colNums (rows : List Row) (c : String) : List ℚ :=
  rows.filterMap (fun r => toNumeric (cellValue c r))

/-- Second pass of year-column detection: the column has at least one
coercible value and, after `astype(int)` truncation, strictly more than half
of the coercible values lie between 1900 and 2100
(`vals.between(1900, 2100).mean() > 0.5`). -/
def yearRange (rows : List Row) (c : String) : Bool :=
  let vs := colNums rows c
  !vs.isEmpty &&
    vs.length < 2 * (vs.filter (fun q => decide (1900 ≤ ratTrunc q ∧ ratTrunc q ≤ 2100))).length

/-- Lines 58-73 of `nl_aggregate.py` (and 82-97 of `pandasai_query.py`):
first loop takes the first column whose normalized name contains `"year"`;
only if that finds nothing, a second loop takes the first column passing the
value-range heuristic. -/
def inferYearColumn (rows : List Row) : Option String :=
  match (colsOf rows).find? yearName with
  | some c => some c
  | none => (colsOf rows).find? (yearRange rows)

/-- `valid_years = pd.to_numeric(df[year_col], errors="coerce").dropna().astype(int)`. -/
def validYears (rows : List Row) (yc : String) : List ℤ :=
  (colNums rows yc).map ratTrunc

/-- Descending sort (`sorted(..., reverse=True)`). -/
def sortDesc (l : List ℤ) : List ℤ :=
  (List.insertionSort (fun a b => a ≤ b) l).reverse

/-- Python list slicing `lst[:k]`: the first `k` elements for `k ≥ 0`, and
all but the last `-k` elements for `k < 0`. -/
def pyTake {α : Type} (k : ℤ) (l : List α) : List α :=
  if 0 ≤ k then l.take k.toNat else l.take (l.length - (-k).toNat)

/-- `recent_years = sorted(valid_years.unique(), reverse=True)[:years_back]`. -/
def recentYears (rows : List Row) (yc : String) (yearsBack : ℤ) : List ℤ :=
  pyTake yearsBack (sortDesc (dedupFirst (validYears rows yc)))

/-- `years_numeric.isin(recent_years)` at one row: the un-truncated coerced
year value must equal one of the selected (integer) years; NaN is in no set. -/
def rowInYears (yc : String) (recent : List ℤ) (r : Row) : Bool :=
  match toNumeric (cellValue yc r) with
  | some q => recent.any (fun y => decide (q = (y : ℚ)))
  | none => false

/-- `subset = df[years_numeric.isin(recent_years)]`: the selected rows in
their original order. -/
def subsetRows (rows : List Row) (yc : String) (recent : List ℤ) : List Row :=
  rows.filter (rowInYears yc recent)

/-- The regex class `[a-z]`: lowercase ASCII letters. -/
def isKeptAlpha (c : Char) : Bool :=
  97 ≤ c.toNat && c.toNat ≤ 122

/-- `re.findall(r"[a-z]+", s)` over an already-normalized string: the
maximal runs of lowercase letters. -/
def alphaRuns (l : List Char) : List (List Char) :=
  match l with
  | [] => []
  | c :: rest =>
    if isKeptAlpha c then
      (c :: rest.takeWhile isKeptAlpha) :: alphaRuns (rest.dropWhile isKeptAlpha)
    else alphaRuns rest
termination_by l.length
decreasing_by
  · simp only [List.length_cons]
    have := (List.dropWhile_sublist (l := rest) isKeptAlpha).length_le
    omega
  · simp

/-- The `score` function of lines 94-101 of `nl_aggregate.py`:
`len(set(findall("[a-z]+", cn)) & set(findall("[a-z]+", tp))) + bonus`,
with a bonus of 2 when both normalized forms contain `"time"`. -/
def scoreCol (tp c : String) : ℕ :=
  let cn := (normalizeName c).data
  let tpn := (normalizeName tp).data
  let common := (dedupFirst (alphaRuns cn)).filter (fun t => decide (t ∈ alphaRuns tpn))
  common.length + (if containsSub timeChars cn && containsSub timeChars tpn then 2 else 0)

/-- Python `max(items, key=key)`: the first element attaining the maximal
key (the running maximum is replaced only on a strictly greater key);
`none` models the `ValueError` of `max` on an empty sequence.  `pyStep` is
one comparison step of the running maximum. -/
def pyStep (key : String → ℕ) (b a : String) : String :=
  if key b < key a then a else b

/-- See `pyMaxBy`. -/
def pyMaxBy (key : String → ℕ) : List String → Option String
  | [] => none
  | x :: xs => some (xs.foldl (pyStep key) x)

/-- `target_col = max(df.columns, key=score)`. -/
def resolveTarget (cols : List String) (tp : String) : Option String :=
  pyMaxBy (scoreCol tp) cols

/-- Modelled from the spec (§3 Duration Value); the parsing itself lives in
the external pandas library (`pd.to_timedelta(..., errors="coerce")`), not
in this repository: a string of the clock-like shape `H:MM:SS` or `HH:MM`
becomes a duration in seconds, anything else (including plain numbers and
missing values, whose `str()` forms are not clock-like) becomes missing. -/
def parseClock (l : List Char) : Option ℚ :=
  let h := l.takeWhile isDigit
  match l.drop h.length with
  | ':' :: rest =>
    let m := rest.takeWhile isDigit
    if h.isEmpty || m.isEmpty then none
    else
      match rest.drop m.length with
      | [] => some ((natOfDigits h : ℚ) * 3600 + (natOfDigits m : ℚ) * 60)
      | ':' :: rest2 =>
        let s := rest2.takeWhile isDigit
        if s.isEmpty || !(rest2.drop s.length).isEmpty then none
        else some ((natOfDigits h : ℚ) * 3600 + (natOfDigits m : ℚ) * 60 + (natOfDigits s : ℚ))
      | _ => none
  | _ => none

/-- `pd.to_timedelta(value.astype(str), errors="coerce").dt.total_seconds()`
on one cell (see `parseClock`). -/
def toSeconds : Value → Option ℚ
  | .vStr s => parseClock s.data
  | _ => none

/-- Lines 107-129 of `nl_aggregate.py`: duration path when the normalized
target column name contains `"time"`, numeric path otherwise; an empty
coercible set raises, which line 131 wraps into the
`"Deterministic aggregator error: ..."` message. -/
def aggregate (subset : List Row) (targetCol : String) (yearsBack : ℕ) :
    Except String String :=
  if containsSub timeChars (normalizeName targetCol).data then
    match meanOpt (subset.filterMap (fun r => toSeconds (cellValue targetCol r))) with
    | none => .error "Deterministic aggregator error: Could not compute average of time column"
    | some avg =>
        .ok ("Average " ++ targetCol ++ " over past " ++ toString yearsBack ++
          " years: " ++ formatDuration avg)
  else
    match meanOpt (subset.filterMap (fun r => toNumeric (cellValue targetCol r))) with
    | none => .error "Deterministic aggregator error: Could not compute average of numeric column"
    | some avg =>
        .ok ("Average " ++ targetCol ++ " over past " ++ toString yearsBack ++
          " years: " ++ format4 avg)

/-- The deterministic pipeline of `nl_aggregate.py`, lines 48-129, on an
already-loaded dataframe: every `print(json.dumps({"error": ...})); exit`
becomes an `error`, the final answer an `ok`.  The `none` branch of
`resolveTarget` is unreachable: reaching it requires a detected year column,
which is itself drawn from `colsOf rows`. -/
def runPipeline (rows : List Row) (question : String) : Except String String :=
  match parseQuestion question with
  | none => .error "Question not supported by deterministic aggregator."
  | some (targetPhrase, yearsBack) =>
    match inferYearColumn rows with
    | none => .error "Could not detect a 'year' column."
    | some yearCol =>
      if (validYears rows yearCol).isEmpty then .error "No valid year values found."
      else
        let recent := recentYears rows yearCol (yearsBack : ℤ)
        let subset := subsetRows rows yearCol recent
        if subset.isEmpty then .error "No rows within the requested year range."
        else
          match resolveTarget (colsOf rows) targetPhrase with
          | none => .error "max() arg is an empty sequence"
          | some targetCol => aggregate subset targetCol yearsBack

/-! ## Process-level output model

Each script writes JSON objects to stdout with `print(json.dumps(...))` and
diagnostic tracing to stderr with `print(..., file=sys.stderr)`; the model
collects the stdout JSON values in order (stderr is a separate stream and
never contributes to this list). -/

/-- The JSON values the scripts emit on stdout. -/
inductive Json
  | obj : List (String × Json) → Json
  | str : String → Json
  | nul : Json

/-- The outcome of the argument/file/JSON-loading prologue shared by both
scripts (lines 11-41 of `nl_aggregate.py`, lines 13-68 of
`pandasai_query.py`).  `ok` carries the loaded rows — for
`pandasai_query.py` these are the rows after its in-try numeric
preprocessing, whose failures fall under `loadError` — and the question. -/
inductive LoadOutcome
  | badArgs : LoadOutcome
  | fileMissing : String → LoadOutcome
  | noStructured : LoadOutcome
  | loadError : String → LoadOutcome
  | ok : List Row → String → LoadOutcome

/-- `nl_aggregate.py` end to end: the JSON objects printed to stdout on each
path. -/
def nlMain : LoadOutcome → List Json
  | .badArgs =>
      [Json.obj [("error", Json.str "Usage: python nl_aggregate.py <json_file> <question>")]]
  | .fileMissing f => [Json.obj [("error", Json.str ("File not found: " ++ f))]]
  | .noStructured => [Json.obj [("error", Json.str "No structuredData.data found in JSON file.")]]
  | .loadError m => [Json.obj [("error", Json.str ("Failed to load DataFrame: " ++ m))]]
  | .ok rows q =>
    match runPipeline rows q with
    | .ok a => [Json.obj [("answer", Json.str a)]]
    | .error e => [Json.obj [("error", Json.str e)]]

/-- The deterministic attempt of `pandasai_query.py` (lines 74-140): unlike
`nl_aggregate.py` it prints no intermediate errors — every failed guard or
raised exception falls through (`except: pass`) to the generative fallback,
here `none`.  It also performs no subset-emptiness check: an empty subset
reaches the mean, whose NaN raises and falls through. -/
def pandasDet (rows : List Row) (q : String) : Option String :=
  match parseQuestion q with
  | none => none
  | some (targetPhrase, yearsBack) =>
    match inferYearColumn rows with
    | none => none
    | some yearCol =>
      if (validYears rows yearCol).isEmpty then none
      else
        let recent := recentYears rows yearCol (yearsBack : ℤ)
        let subset := subsetRows rows yearCol recent
        match resolveTarget (colsOf rows) targetPhrase with
        | none => none
        | some targetCol =>
          match aggregate subset targetCol yearsBack with
          | .ok a => some a
          | .error _ => none

/-- Outcome of the external generative collaborator (`sdf.chat` plus the
surrounding result/code extraction): an answer with optional generated
code, or an exception message with whatever code was captured. -/
inductive CollabOutcome
  | ok : Option String → Option String → CollabOutcome
  | err : String → Option String → CollabOutcome

/-- Render an optional string as JSON (`None` becomes `null`). -/
def optJson : Option String → Json
  | none => Json.nul
  | some s => Json.str s

/-- `pandasai_query.py` end to end: deterministic success prints
`{"answer": ..., "code": null}` and exits; otherwise the collaborator's
outcome is printed, success as an answer/code object, failure as a
`"PandasAI error: ..."` object. -/
def pandasMain : LoadOutcome → CollabOutcome → List Json
  | .badArgs, _ =>
      [Json.obj [("error", Json.str "Usage: python pandasai_query.py <json_file> <question>")]]
  | .fileMissing f, _ => [Json.obj [("error", Json.str ("File not found: " ++ f))]]
  | .noStructured, _ =>
      [Json.obj [("error", Json.str "No structuredData.data found in JSON file.")]]
  | .loadError m, _ => [Json.obj [("error", Json.str ("Failed to load DataFrame: " ++ m))]]
  | .ok rows q, collab =>
    match pandasDet rows q with
    | some ans => [Json.obj [("answer", Json.str ans), ("code", Json.nul)]]
    | none =>
      match collab with
      | .ok a c => [Json.obj [("answer", optJson a), ("code", optJson c)]]
      | .err m c => [Json.obj [("error", Json.str ("PandasAI error: " ++ m)), ("code", optJson c)]]

/-- The datasets and questions named by the spec's Scenario A/B. -/
def scenarioRows : List Row :=
  [[("year", .vNum 2020), ("score", .vNum 10)],
   [("year", .vNum 2021), ("score", .vNum 20)],
   [("year", .vNum 2022), ("score", .vNum 30)]]

/-! ## Theorems -/

theorem lowerChar_of_kept {c : Char} (h : isKept c = true) : lowerChar c = c := by
  simp only [isKept, Bool.or_eq_true, Bool.and_eq_true, decide_eq_true_eq] at h
  rw [lowerChar, if_neg]
  omega

theorem filter_kept_map_lower {l : List Char} (h : ∀ c ∈ l, isKept c = true) :
    (l.map lowerChar).filter isKept = l := by
  induction l with
  | nil => rfl
  | cons a t ih =>
    have ha : isKept a = true := h a (List.mem_cons_self a t)
    rw [List.map_cons, List.filter_cons, lowerChar_of_kept ha, if_pos ha,
      ih (fun c hc => h c (List.mem_cons_of_mem a hc))]

/-- C9: name normalization (lowercase, then strip every character that is
not a lowercase letter or digit) is a total function on strings — it is a
plain `String → String` definition — and it is idempotent:
`normalize_name(normalize_name(s)) = normalize_name(s)` for every string. -/
theorem c9_normalize_idempotent (s : String) :
    normalizeName (normalizeName s) = normalizeName s := by
  show String.mk _ = String.mk _
  exact congrArg String.mk
    (filter_kept_map_lower (fun c hc => (List.mem_filter.mp hc).2))

/-- C6: duration formatting of a mean of S seconds renders hours unpadded
and minutes/seconds zero-padded to two digits, truncating the fractional
second at the final formatting step: 7380.0 s renders `2:03:00`, 45.0 s
renders `0:00:45`, and 10734.7 s renders `2:58:54`. -/
theorem c6_duration_formatting :
    formatDuration 7380 = "2:03:00" ∧ formatDuration 45 = "0:00:45" ∧
      formatDuration (107347 / 10) = "2:58:54" := by
  refine ⟨?_, ?_, ?_⟩ <;> with_unfolding_all rfl

set_option maxRecDepth 10000 in
/-- C1: end-to-end determinism on Scenario A — for the dataset
`[{"year":2020,"score":10},{"year":2021,"score":20},{"year":2022,"score":30}]`
and the question `"average score for the past 2 years"`, the pipeline parses
the question into (`"score"`, 2), selects the year set {2022, 2021}, resolves
the target column `"score"`, computes the mean 25, and produces exactly the
answer string `"Average score over past 2 years: 25.0000"`. -/
theorem c1_scenarioA_end_to_end :
    parseQuestion "average score for the past 2 years" = some ("score", 2) ∧
    recentYears scenarioRows "year" 2 = [2022, 2021] ∧
    resolveTarget (colsOf scenarioRows) "score" = some "score" ∧
    meanOpt ((subsetRows scenarioRows "year" [2022, 2021]).filterMap
      (fun r => toNumeric (cellValue "score" r))) = some 25 ∧
    runPipeline scenarioRows "average score for the past 2 years" =
      .ok "Average score over past 2 years: 25.0000" := by
  refine ⟨?_, ?_, ?_, ?_, ?_⟩ <;> with_unfolding_all rfl

/-- C8: on every execution path — success and every recognized failure kind
of the loading prologue, the deterministic pipeline, and the generative
collaborator — each script emits exactly one JSON object on stdout
(successes as an answer object, failures as an error object); the stderr
diagnostics are a separate stream and never enter this list. -/
theorem c8_single_json_object :
    (∀ o : LoadOutcome, ∃ fields, nlMain o = [Json.obj fields]) ∧
    (∀ (o : LoadOutcome) (c : CollabOutcome), ∃ fields, pandasMain o c = [Json.obj fields]) := by
  constructor
  · intro o
    cases o with
    | badArgs => exact ⟨_, rfl⟩
    | fileMissing f => exact ⟨_, rfl⟩
    | noStructured => exact ⟨_, rfl⟩
    | loadError m => exact ⟨_, rfl⟩
    | ok rows q =>
      cases h : runPipeline rows q with
      | ok a => exact ⟨[("answer", Json.str a)], by simp [nlMain, h]⟩
      | error e => exact ⟨[("error", Json.str e)], by simp [nlMain, h]⟩
  · intro o c
    cases o with
    | badArgs => exact ⟨_, rfl⟩
    | fileMissing f => exact ⟨_, rfl⟩
    | noStructured => exact ⟨_, rfl⟩
    | loadError m => exact ⟨_, rfl⟩
    | ok rows q =>
      cases h : pandasDet rows q with
      | some a => exact ⟨[("answer", Json.str a), ("code", Json.nul)], by simp [pandasMain, h]⟩
      | none =>
        cases c with
        | ok a cd => exact ⟨[("answer", optJson a), ("code", optJson cd)], by simp [pandasMain, h]⟩
        | err m cd =>
          exact ⟨[("error", Json.str ("PandasAI error: " ++ m)), ("code", optJson cd)],
            by simp [pandasMain, h]⟩

theorem foldl_pyStep_first_max (key : String → ℕ) :
    ∀ (xs : List String) (x : String),
      ∃ pre post, x :: xs = pre ++ (xs.foldl (pyStep key) x) :: post ∧
        (∀ d ∈ pre, key d < key (xs.foldl (pyStep key) x)) ∧
        (∀ d ∈ x :: xs, key d ≤ key (xs.foldl (pyStep key) x)) := by
  intro xs
  induction xs with
  | nil =>
    intro x
    exact ⟨[], [], rfl, by simp, by simp⟩
  | cons a t ih =>
    intro x
    rw [List.foldl_cons]
    by_cases h : key x < key a
    · rw [pyStep, if_pos h]
      obtain ⟨pre, post, heq, hlt, hle⟩ := ih a
      have har : key a ≤ key (t.foldl (pyStep key) a) := hle a (List.mem_cons_self a t)
      refine ⟨x :: pre, post, ?_, ?_, ?_⟩
      · rw [List.cons_append, ← heq]
      · intro d hd
        rcases List.mem_cons.mp hd with hx | hp
        · exact hx ▸ lt_of_lt_of_le h har
        · exact hlt d hp
      · intro d hd
        rcases List.mem_cons.mp hd with hx | hp
        · exact hx ▸ le_of_lt (lt_of_lt_of_le h har)
        · exact hle d hp
    · rw [pyStep, if_neg h]
      obtain ⟨pre, post, heq, hlt, hle⟩ := ih x
      have hax : key a ≤ key x := le_of_not_lt h
      have hxr : key x ≤ key (t.foldl (pyStep key) x) := hle x (List.mem_cons_self x t)
      cases pre with
      | nil =>
        simp only [List.nil_append] at heq
        have hx : x = t.foldl (pyStep key) x := (List.cons.injEq _ _ _ _).mp heq |>.1
        refine ⟨[], a :: t, ?_, by simp, ?_⟩
        · rw [List.nil_append, ← hx]
        · intro d hd
          rcases List.mem_cons.mp hd with h1 | hd2
          · exact h1 ▸ hxr
          · rcases List.mem_cons.mp hd2 with h2 | hd3
            · exact h2 ▸ le_trans hax hxr
            · exact hle d (List.mem_cons_of_mem x hd3)
      | cons p ps =>
        rw [List.cons_append] at heq
        have hp : p = x := (((List.cons.injEq _ _ _ _).mp heq).1).symm
        have ht : t = ps ++ (t.foldl (pyStep key) x) :: post :=
          ((List.cons.injEq _ _ _ _).mp heq).2
        have hxlt : key x < key (t.foldl (pyStep key) x) :=
          hp ▸ hlt p (List.mem_cons_self p ps)
        refine ⟨x :: a :: ps, post, ?_, ?_, ?_⟩
        · rw [List.cons_append, List.cons_append, ← ht]
        · intro d hd
          rcases List.mem_cons.mp hd with h1 | hd2
          · exact h1 ▸ hxlt
          · rcases List.mem_cons.mp hd2 with h2 | hd3
            · exact h2 ▸ lt_of_le_of_lt hax hxlt
            · exact hlt d (hp ▸ List.mem_cons_of_mem p hd3)
        · intro d hd
          rcases List.mem_cons.mp hd with h1 | hd2
          · exact h1 ▸ hxr
          · rcases List.mem_cons.mp hd2 with h2 | hd3
            · exact h2 ▸ le_trans hax hxr
            · exact hle d (List.mem_cons_of_mem x (ht ▸ hd3 : d ∈ t))

/-- C5: the Column Resolver is a deterministic total function on non-empty
column lists (it is a plain function of its two arguments, so repeated
calls agree by definition): it returns some column even when the maximal
score is 0 — there is no failure outcome — and the returned column is the
first column in original order attaining the maximum of `scoreCol`. -/
theorem c5_resolver_first_max (cols : List String) (tp : String) (h : cols ≠ []) :
    ∃ c, resolveTarget cols tp = some c ∧ c ∈ cols ∧
      (∀ d ∈ cols, scoreCol tp d ≤ scoreCol tp c) ∧
      ∃ pre post, cols = pre ++ c :: post ∧ ∀ d ∈ pre, scoreCol tp d < scoreCol tp c := by
  cases cols with
  | nil => exact absurd rfl h
  | cons x xs =>
    obtain ⟨pre, post, heq, hlt, hle⟩ := foldl_pyStep_first_max (scoreCol tp) xs x
    refine ⟨xs.foldl (pyStep (scoreCol tp)) x, rfl, ?_, hle, pre, post, heq, hlt⟩
    rw [heq]
    exact List.mem_append_right pre (List.mem_cons_self _ post)

/-- Witness for C5 at a concrete input: two columns sharing no token with
the phrase (both scores 0); the resolver still returns the first column. -/
theorem c5_resolver_first_max_witness :
    ∃ c, resolveTarget ["alpha", "beta"] "zzz" = some c ∧ c ∈ ["alpha", "beta"] ∧
      (∀ d ∈ ["alpha", "beta"], scoreCol "zzz" d ≤ scoreCol "zzz" c) ∧
      ∃ pre post, ["alpha", "beta"] = pre ++ c :: post ∧
        ∀ d ∈ pre, scoreCol "zzz" d < scoreCol "zzz" c :=
  c5_resolver_first_max ["alpha", "beta"] "zzz" (by simp)

/-- C4: year-column inference runs in two passes — the first pass returns
the first column (in original order) whose normalized name contains
`"year"`; the value-range heuristic is consulted only if the first pass
finds nothing; any dataset containing a column literally named `"Year"` (in
any case/spacing variant, i.e. normalizing to `"year"`) therefore gets a
name-matched column, never a mere numeric-range candidate; and `none` is
returned only when both passes fail. -/
theorem c4_year_column_two_pass (rows : List Row) :
    ((colsOf rows).find? yearName = none →
      inferYearColumn rows = (colsOf rows).find? (yearRange rows)) ∧
    (∀ pre c post, colsOf rows = pre ++ c :: post → yearName c = true →
      (∀ d ∈ pre, yearName d = false) → inferYearColumn rows = some c) ∧
    (∀ y ∈ colsOf rows, normalizeName y = "year" →
      ∃ c, inferYearColumn rows = some c ∧ yearName c = true) ∧
    (inferYearColumn rows = none ↔
      ∀ c ∈ colsOf rows, yearName c = false ∧ yearRange rows c = false) := by
  refine ⟨?_, ?_, ?_, ?_⟩
  · intro h
    simp [inferYearColumn, h]
  · intro pre c post heq hc hpre
    have hfind : (colsOf rows).find? yearName = some c := by
      rw [List.find?_eq_some]
      exact ⟨hc, pre, post, heq, fun a ha => by simp [hpre a ha]⟩
    simp [inferYearColumn, hfind]
  · intro y hy hnorm
    have hyn : yearName y = true := by
      rw [yearName, hnorm]
      decide
    have : ((colsOf rows).find? yearName).isSome := by
      rw [List.find?_isSome]
      exact ⟨y, hy, hyn⟩
    obtain ⟨c, hc⟩ := Option.isSome_iff_exists.mp this
    exact ⟨c, by simp [inferYearColumn, hc], List.find?_some hc⟩
  · constructor
    · intro h c hc
      rw [inferYearColumn] at h
      rcases h1 : (colsOf rows).find? yearName with _ | c1
      · rw [h1] at h
        simp only at h
        rw [List.find?_eq_none] at h1 h
        exact ⟨Bool.eq_false_iff.mpr (h1 c hc), Bool.eq_false_iff.mpr (h c hc)⟩
      · rw [h1] at h
        simp at h
    · intro h
      have h1 : (colsOf rows).find? yearName = none :=
        List.find?_eq_none.mpr (fun c hc => by simp [(h c hc).1])
      have h2 : (colsOf rows).find? (yearRange rows) = none :=
        List.find?_eq_none.mpr (fun c hc => by simp [(h c hc).2])
      simp [inferYearColumn, h1, h2]

/-- Witness for C4 at a concrete dataset: a column literally named `"Year"`
next to a plausible numeric-range column; the name pass wins. -/
theorem c4_year_column_two_pass_witness :
    ∃ c, inferYearColumn [[("n", Value.vNum 2000), ("Year", Value.vNum 1)]] = some c ∧
      yearName c = true :=
  (c4_year_column_two_pass [[("n", Value.vNum 2000), ("Year", Value.vNum 1)]]).2.2.1
    "Year" (by with_unfolding_all decide) (by with_unfolding_all rfl)

theorem mem_dedupSeen {α : Type} [DecidableEq α] :
    ∀ (l seen : List α) (a : α), a ∈ dedupSeen seen l ↔ a ∈ l ∧ a ∉ seen := by
  intro l
  induction l with
  | nil => intro seen a; simp [dedupSeen]
  | cons x xs ih =>
    intro seen a
    rw [dedupSeen]
    by_cases hx : x ∈ seen
    · rw [if_pos hx, ih]
      constructor
      · rintro ⟨h1, h2⟩
        exact ⟨List.mem_cons_of_mem x h1, h2⟩
      · rintro ⟨h1, h2⟩
        rcases List.mem_cons.mp h1 with he | hm
        · exact absurd (he ▸ hx) h2
        · exact ⟨hm, h2⟩
    · rw [if_neg hx]
      constructor
      · intro h
        rcases List.mem_cons.mp h with he | hm
        · exact ⟨he ▸ List.mem_cons_self x xs, he ▸ hx⟩
        · obtain ⟨h1, h2⟩ := (ih (x :: seen) a).mp hm
          exact ⟨List.mem_cons_of_mem x h1, fun hs => h2 (List.mem_cons_of_mem x hs)⟩
      · rintro ⟨h1, h2⟩
        by_cases he : a = x
        · exact he ▸ List.mem_cons_self x _
        · rcases List.mem_cons.mp h1 with h3 | h3
          · exact absurd h3 he
          · refine List.mem_cons_of_mem x ((ih (x :: seen) a).mpr ⟨h3, ?_⟩)
            intro hs
            rcases List.mem_cons.mp hs with h4 | h4
            · exact he h4
            · exact h2 h4

theorem nodup_dedupSeen {α : Type} [DecidableEq α] :
    ∀ (l seen : List α), (dedupSeen seen l).Nodup := by
  intro l
  induction l with
  | nil => intro seen; simp [dedupSeen]
  | cons x xs ih =>
    intro seen
    rw [dedupSeen]
    by_cases hx : x ∈ seen
    · rw [if_pos hx]; exact ih seen
    · rw [if_neg hx]
      refine List.nodup_cons.mpr ⟨?_, ih (x :: seen)⟩
      intro hmem
      exact ((mem_dedupSeen xs (x :: seen) x).mp hmem).2 (List.mem_cons_self x seen)

theorem mem_dedupFirst {α : Type} [DecidableEq α] (l : List α) (a : α) :
    a ∈ dedupFirst l ↔ a ∈ l := by
  rw [dedupFirst, mem_dedupSeen]
  simp

theorem nodup_dedupFirst {α : Type} [DecidableEq α] (l : List α) :
    (dedupFirst l).Nodup :=
  nodup_dedupSeen l []

theorem recentYears_natCast (rows : List Row) (yc : String) (n : ℕ) :
    recentYears rows yc (n : ℤ) =
      (sortDesc (dedupFirst (validYears rows yc))).take n := by
  rw [recentYears, pyTake, if_pos (Int.natCast_nonneg n), Int.toNat_natCast]

theorem sortDesc_perm (l : List ℤ) : List.Perm (sortDesc l) l :=
  (List.reverse_perm _).trans (List.perm_insertionSort _ l)

theorem sortDesc_pairwise (l : List ℤ) :
    (sortDesc l).Pairwise (fun a b => b ≤ a) := by
  rw [sortDesc, List.pairwise_reverse]
  exact List.sorted_insertionSort (fun a b => a ≤ b) l

theorem rowInYears_iff (yc : String) (recent : List ℤ) (r : Row) :
    rowInYears yc recent r = true ↔
      ∃ y ∈ recent, toNumeric (cellValue yc r) = some (y : ℚ) := by
  rw [rowInYears]
  cases h : toNumeric (cellValue yc r) with
  | none => simp
  | some q => simp only [List.any_eq_true, decide_eq_true_eq, Option.some.injEq]

/-- The side of C7 dealing with the window itself, on the sorted-descending
prefix: length clamping, membership, and dominance over the unselected
distinct years. -/
theorem takeDesc_window (d : List ℤ) (n : ℕ) :
    ((sortDesc d).take n).length = min n d.length ∧
    (∀ y ∈ (sortDesc d).take n, y ∈ d) ∧
    (∀ y ∈ (sortDesc d).take n, ∀ z ∈ d, z ∉ (sortDesc d).take n → z < y) := by
  have hperm := sortDesc_perm d
  refine ⟨?_, ?_, ?_⟩
  · rw [List.length_take, hperm.length_eq]
  · intro y hy
    exact hperm.mem_iff.mp (List.take_subset n _ hy)
  · intro y hy z hz hzn
    have hzs : z ∈ (sortDesc d).take n ++ (sortDesc d).drop n := by
      rw [List.take_append_drop]
      exact hperm.mem_iff.mpr hz
    have hzd : z ∈ (sortDesc d).drop n := by
      rcases List.mem_append.mp hzs with h1 | h1
      · exact absurd h1 hzn
      · exact h1
    have hp : ((sortDesc d).take n ++ (sortDesc d).drop n).Pairwise (fun a b => b ≤ a) := by
      rw [List.take_append_drop]
      exact sortDesc_pairwise d
    have hle : z ≤ y := (List.pairwise_append.mp hp).2.2 y hy z hzd
    have hne : z ≠ y := fun he => hzn (he ▸ hy)
    exact lt_of_le_of_ne hle hne

set_option maxRecDepth 10000 in
/-- C7: the Recency Window is the `take` of the descending-sorted distinct
year values — its length clamps to `min n (#distinct)`, its members are
distinct observed years, every unselected distinct year is strictly below
every selected one; a row is selected iff its coerced year value is a
member of the window, selection preserves original order (it is a sublist);
and on Scenario B requesting 10 years over 3 distinct years selects all 3
and yields mean 20. -/
theorem c7_recency_window (rows : List Row) (yc : String) (n : ℕ) :
    (∀ y, y ∈ dedupFirst (validYears rows yc) ↔ y ∈ validYears rows yc) ∧
    (recentYears rows yc (n : ℤ)).length = min n (dedupFirst (validYears rows yc)).length ∧
    (∀ y ∈ recentYears rows yc (n : ℤ), y ∈ dedupFirst (validYears rows yc)) ∧
    (∀ y ∈ recentYears rows yc (n : ℤ), ∀ z ∈ dedupFirst (validYears rows yc),
      z ∉ recentYears rows yc (n : ℤ) → z < y) ∧
    (∀ row, row ∈ subsetRows rows yc (recentYears rows yc (n : ℤ)) ↔
      row ∈ rows ∧ ∃ y ∈ recentYears rows yc (n : ℤ),
        toNumeric (cellValue yc row) = some (y : ℚ)) ∧
    (subsetRows rows yc (recentYears rows yc (n : ℤ))).Sublist rows ∧
    recentYears scenarioRows "year" 10 = [2022, 2021, 2020] ∧
    runPipeline scenarioRows "average score for the past 10 years" =
      .ok "Average score over past 10 years: 20.0000" := by
  obtain ⟨hlen, hmem, hdom⟩ := takeDesc_window (dedupFirst (validYears rows yc)) n
  rw [← recentYears_natCast] at hlen hmem hdom
  refine ⟨fun y => mem_dedupFirst _ y, hlen, hmem, hdom, ?_, List.filter_sublist rows,
    by with_unfolding_all rfl, by with_unfolding_all rfl⟩
  intro row
  rw [subsetRows, List.mem_filter, rowInYears_iff]

set_option maxRecDepth 10000 in
/-- Witness for C7 at Scenario A's dataset with a 2-year window: the
unselected distinct year 2020 is strictly below the selected 2022. -/
theorem c7_recency_window_witness : (2020 : ℤ) < 2022 :=
  (c7_recency_window scenarioRows "year" 2).2.2.2.1 2022
    (by with_unfolding_all decide) 2020
    (by with_unfolding_all decide) (by with_unfolding_all decide)

theorem recentYears_zero (rows : List Row) (yc : String) : recentYears rows yc 0 = [] := by
  simp [recentYears, pyTake]

theorem rowInYears_nil (yc : String) (r : Row) : rowInYears yc [] r = false := by
  rw [rowInYears]
  cases toNumeric (cellValue yc r) with
  | none => rfl
  | some q => rfl

theorem subsetRows_nil (rows : List Row) (yc : String) : subsetRows rows yc [] = [] := by
  rw [subsetRows]
  induction rows with
  | nil => rfl
  | cons r t ih => simp [List.filter_cons, rowInYears_nil, ih]

set_option maxRecDepth 10000 in
/-- C2 counterexample: the claim quantifies over every integer
`years_back ≤ 0`, but at `years_back = -1` Python's slice `lst[:-1]` keeps
all but the last element, so on a dataset with two distinct years the
selected year set is `[2021]` — not empty — and the row subset is
non-empty as well. -/
theorem c2_filter_nonpositive_counterexample :
    recentYears [[("year", Value.vNum 2020)], [("year", Value.vNum 2021)]] "year" (-1) =
      [2021] ∧
    subsetRows [[("year", Value.vNum 2020)], [("year", Value.vNum 2021)]] "year" [2021] =
      [[("year", Value.vNum 2021)]] ∧
    recentYears [[("year", Value.vNum 2020)], [("year", Value.vNum 2021)]] "year" (-1) ≠
      [] := by
  refine ⟨by with_unfolding_all rfl, by with_unfolding_all rfl, ?_⟩
  with_unfolding_all decide

/-- C2 as amended: at `years_back = 0` — the only non-positive value the
digit-only question pattern can produce — the temporal filter yields an
empty selected year set and an empty row subset without raising, and the
pipeline surfaces the empty subset one stage later as the
`"No rows within the requested year range."` error, not as a crash. -/
theorem c2_filter_zero_empty_window :
    (∀ (rows : List Row) (yc : String), recentYears rows yc 0 = [] ∧
      subsetRows rows yc (recentYears rows yc 0) = []) ∧
    (∀ (rows : List Row) (q tp yc : String),
      parseQuestion q = some (tp, 0) → inferYearColumn rows = some yc →
      (validYears rows yc).isEmpty = false →
      runPipeline rows q = .error "No rows within the requested year range.") := by
  constructor
  · intro rows yc
    rw [recentYears_zero]
    exact ⟨rfl, subsetRows_nil rows yc⟩
  · intro rows q tp yc hq hy hv
    simp only [runPipeline, hq, hy, hv, Bool.false_eq_true, if_false, Nat.cast_zero,
      recentYears_zero, subsetRows_nil, List.isEmpty_nil, if_true]

/-- Witness for C2's amended statement on Scenario A's dataset with the
question `"average score for the past 0 years"`. -/
theorem c2_filter_zero_empty_window_witness :
    runPipeline scenarioRows "average score for the past 0 years" =
      .error "No rows within the requested year range." :=
  c2_filter_zero_empty_window.2 scenarioRows "average score for the past 0 years"
    "score" "year" (by with_unfolding_all rfl) (by with_unfolding_all rfl)
    (by with_unfolding_all rfl)

theorem isSpace_false_of_digit {c : Char} (h : isDigit c = true) : isSpace c = false := by
  simp only [isDigit, Bool.and_eq_true, decide_eq_true_eq] at h
  by_contra hs
  rw [Bool.not_eq_false, isSpace] at hs
  simp only [Bool.or_eq_true, decide_eq_true_eq] at hs
  rcases hs with ((((h1 | h1) | h1) | h1) | h1) | h1 <;> subst h1 <;>
    exact absurd h (by decide)

theorem tailMatch_concrete (ds post : List Char) (hne : ds ≠ [])
    (hd : ∀ c ∈ ds, isDigit c = true) :
    tailMatch (' ' :: 'f' :: 'o' :: 'r' :: ' ' :: 't' :: 'h' :: 'e' :: ' ' :: 'p' :: 'a' ::
      's' :: 't' :: ' ' :: (ds ++ ' ' :: 'y' :: 'e' :: 'a' :: 'r' :: 's' :: post)) = some ds := by
  have hds : (ds ++ ' ' :: 'y' :: 'e' :: 'a' :: 'r' :: 's' :: post).dropWhile isSpace
      = ds ++ ' ' :: 'y' :: 'e' :: 'a' :: 'r' :: 's' :: post := by
    cases ds with
    | nil => exact absurd rfl hne
    | cons d t =>
      rw [List.cons_append, List.dropWhile_cons_of_neg]
      simp [isSpace_false_of_digit (hd d (List.mem_cons_self d t))]
  have htake : (ds ++ ' ' :: 'y' :: 'e' :: 'a' :: 'r' :: 's' :: post).takeWhile isDigit = ds := by
    rw [List.takeWhile_append_of_pos hd]
    simp +decide [List.takeWhile_cons]
  have hdrop : (ds ++ ' ' :: 'y' :: 'e' :: 'a' :: 'r' :: 's' :: post).dropWhile isDigit
      = ' ' :: 'y' :: 'e' :: 'a' :: 'r' :: 's' :: post := by
    rw [List.dropWhile_append_of_pos hd]
    simp +decide [List.dropWhile_cons]
  have hemp : ds.isEmpty = false := by
    cases ds with
    | nil => exact absurd rfl hne
    | cons d t => rfl
  have hdig : digits1 (ds ++ ' ' :: 'y' :: 'e' :: 'a' :: 'r' :: 's' :: post)
      = some (ds, ' ' :: 'y' :: 'e' :: 'a' :: 'r' :: 's' :: post) := by
    rw [digits1]
    simp only [htake, hdrop, hemp, Bool.false_eq_true, if_false]
  simp +decide [tailMatch, dropSpaces1, stripCI, hds, hdig, List.dropWhile_cons, lowerChar]

theorem tryG1_complete :
    ∀ (p r acc : List Char), p ≠ [] → (∀ c ∈ p, c ≠ '\n') →
      (tailMatch r).isSome → (tryG1 acc (p ++ r)).isSome := by
  intro p
  induction p with
  | nil => intro r acc hp; exact absurd rfl hp
  | cons c p' ih =>
    intro r acc hp hn ht
    have hc : ¬(c = '\n') := hn c (List.mem_cons_self c p')
    rw [List.cons_append, tryG1, if_neg hc]
    cases h : tailMatch (p' ++ r) with
    | some ds => rfl
    | none =>
      cases p' with
      | nil =>
        rw [List.nil_append] at h
        rw [h] at ht
        exact absurd ht (by simp)
      | cons c2 p2 =>
        exact ih r (acc ++ [c]) (by simp) (fun d hd => hn d (List.mem_cons_of_mem c hd)) ht

theorem tryS1_complete :
    ∀ (K : ℕ) (rest : List Char) (k : ℕ), 1 ≤ k → k ≤ K →
      (tryG1 [] (rest.drop k)).isSome → (tryS1 K rest).isSome := by
  intro K
  induction K with
  | zero => intro rest k h1 h2; omega
  | succ K ih =>
    intro rest k h1 h2 hg
    rw [tryS1]
    cases h : tryG1 [] (rest.drop (K + 1)) with
    | some r => rfl
    | none =>
      by_cases hk : k = K + 1
      · rw [hk] at hg
        rw [h] at hg
        exact absurd hg (by simp)
      · exact ih rest k h1 (by omega) hg

theorem stripCI_of_map :
    ∀ (pre lit : List Char), pre.map lowerChar = lit →
      ∀ S, stripCI lit (pre ++ S) = some S := by
  intro pre
  induction pre with
  | nil =>
    intro lit hl S
    rw [← hl]
    rfl
  | cons c pre' ih =>
    intro lit hl S
    rw [← hl, List.map_cons, List.cons_append]
    simp only [stripCI, if_pos rfl]
    exact ih _ rfl S

theorem matchAt_complete (p R : List Char) (hp : p ≠ []) (hn : ∀ c ∈ p, c ≠ '\n')
    (ht : (tailMatch R).isSome) :
    (matchAt ('a' :: 'v' :: 'e' :: 'r' :: 'a' :: 'g' :: 'e' :: ' ' :: (p ++ R))).isSome := by
  have hstrip : stripCI ['a', 'v', 'e', 'r', 'a', 'g', 'e']
      ('a' :: 'v' :: 'e' :: 'r' :: 'a' :: 'g' :: 'e' :: ' ' :: (p ++ R)) =
      some (' ' :: (p ++ R)) :=
    stripCI_of_map ['a', 'v', 'e', 'r', 'a', 'g', 'e'] _ (by decide) (' ' :: (p ++ R))
  rw [matchAt, hstrip]
  show (tryS1 ((' ' :: (p ++ R)).takeWhile isSpace).length (' ' :: (p ++ R))).isSome = true
  have hK : ((' ' :: (p ++ R)).takeWhile isSpace).length =
      ((p ++ R).takeWhile isSpace).length + 1 := by
    rw [List.takeWhile_cons_of_pos (by decide)]
    simp
  rw [hK]
  exact tryS1_complete _ (' ' :: (p ++ R)) 1 le_rfl (by omega) (by simpa using tryG1_complete p R [] hp hn ht)

theorem searchQ_complete :
    ∀ (l t : List Char), t <:+ l → (matchAt t).isSome → (searchQ l).isSome := by
  intro l
  induction l with
  | nil =>
    intro t hs hm
    rw [List.suffix_nil.mp hs] at hm
    exact absurd hm (by simp [matchAt, stripCI])
  | cons c rest ih =>
    intro t hs hm
    rw [searchQ]
    cases h : matchAt (c :: rest) with
    | some r => rfl
    | none =>
      rcases List.suffix_cons_iff.mp hs with he | hsuf
      · rw [he, h] at hm
        exact absurd hm (by simp)
      · exact ih t hsuf hm

theorem stripCI_sound :
    ∀ (lit cs r : List Char), stripCI lit cs = some r →
      ∃ pre, cs = pre ++ r ∧ pre.map lowerChar = lit := by
  intro lit
  induction lit with
  | nil =>
    intro cs r h
    rw [stripCI] at h
    exact ⟨[], by simpa using Option.some_inj.mp h, rfl⟩
  | cons l ls ih =>
    intro cs r h
    cases cs with
    | nil => exact absurd h (by simp [stripCI])
    | cons c cs' =>
      rw [stripCI] at h
      by_cases hc : lowerChar c = l
      · rw [if_pos hc] at h
        obtain ⟨pre, heq, hmap⟩ := ih cs' r h
        exact ⟨c :: pre, by rw [List.cons_append, heq], by rw [List.map_cons, hmap, hc]⟩
      · rw [if_neg hc] at h
        exact absurd h (by simp)

theorem dropSpaces1_sound {cs r : List Char} (h : dropSpaces1 cs = some r) : r <:+ cs := by
  cases cs with
  | nil => exact absurd h (by simp [dropSpaces1])
  | cons c t =>
    rw [dropSpaces1] at h
    by_cases hc : isSpace c = true
    · rw [if_pos hc] at h
      rw [← Option.some_inj.mp h]
      exact (List.dropWhile_suffix isSpace).trans (List.suffix_cons c t)
    · rw [if_neg hc] at h
      exact absurd h (by simp)

theorem digits1_sound {cs : List Char} {ds r : List Char}
    (h : digits1 cs = some (ds, r)) : r <:+ cs := by
  rw [digits1] at h
  by_cases he : (cs.takeWhile isDigit).isEmpty = true
  · rw [if_pos he] at h
    exact absurd h (by simp)
  · rw [if_neg he] at h
    have : r = cs.dropWhile isDigit := congrArg Prod.snd (Option.some_inj.mp h.symm)
    rw [this]
    exact List.dropWhile_suffix isDigit

theorem tailMatch_sound {cs ds : List Char} (h : tailMatch cs = some ds) :
    ∃ a p4 b, cs = a ++ p4 ++ b ∧ p4.map lowerChar = yearChars := by
  rw [tailMatch] at h
  obtain ⟨r1, h1, h⟩ := Option.bind_eq_some.mp h
  obtain ⟨r2, h2, h⟩ := Option.bind_eq_some.mp h
  obtain ⟨r3, h3, h⟩ := Option.bind_eq_some.mp h
  obtain ⟨r4, h4, h⟩ := Option.bind_eq_some.mp h
  obtain ⟨r5, h5, h⟩ := Option.bind_eq_some.mp h
  obtain ⟨r6, h6, h⟩ := Option.bind_eq_some.mp h
  obtain ⟨r7, h7, h⟩ := Option.bind_eq_some.mp h
  obtain ⟨dr, h8, h⟩ := Option.bind_eq_some.mp h
  obtain ⟨r9, h9, h⟩ := Option.bind_eq_some.mp h
  obtain ⟨r10, h10, _⟩ := Option.map_eq_some'.mp h
  obtain ⟨p4, hp4eq, hp4map⟩ := stripCI_sound _ _ _ h10
  have hsuf : r9 <:+ cs := by
    have s2 : r2 <:+ r1 := (stripCI_sound _ _ _ h2).elim (fun pre hpre => ⟨pre, hpre.1.symm⟩)
    have s4 : r4 <:+ r3 := (stripCI_sound _ _ _ h4).elim (fun pre hpre => ⟨pre, hpre.1.symm⟩)
    have s6 : r6 <:+ r5 := (stripCI_sound _ _ _ h6).elim (fun pre hpre => ⟨pre, hpre.1.symm⟩)
    exact ((((((((dropSpaces1_sound h9).trans (digits1_sound h8)).trans
      (dropSpaces1_sound h7)).trans s6).trans (dropSpaces1_sound h5)).trans s4).trans
      (dropSpaces1_sound h3)).trans s2).trans (dropSpaces1_sound h1)
  obtain ⟨a, ha⟩ := hsuf
  exact ⟨a, p4, r10, by rw [← ha, hp4eq, List.append_assoc], hp4map⟩

theorem tryG1_sound :
    ∀ (rem acc ph ds : List Char), tryG1 acc rem = some (ph, ds) →
      ∃ r, r <:+ rem ∧ tailMatch r = some ds := by
  intro rem
  induction rem with
  | nil => intro acc ph ds h; exact absurd h (by simp [tryG1])
  | cons c rest ih =>
    intro acc ph ds h
    rw [tryG1] at h
    by_cases hc : c = '\n'
    · rw [if_pos hc] at h
      exact absurd h (by simp)
    · rw [if_neg hc] at h
      cases ht : tailMatch rest with
      | some ds' =>
        rw [ht] at h
        have : ds' = ds := congrArg Prod.snd (Option.some_inj.mp h)
        exact ⟨rest, List.suffix_cons c rest, this ▸ ht⟩
      | none =>
        rw [ht] at h
        obtain ⟨r, hr, hm⟩ := ih (acc ++ [c]) ph ds h
        exact ⟨r, hr.trans (List.suffix_cons c rest), hm⟩

theorem tryS1_sound :
    ∀ (K : ℕ) (rest ph ds : List Char), tryS1 K rest = some (ph, ds) →
      ∃ k, tryG1 [] (rest.drop k) = some (ph, ds) := by
  intro K
  induction K with
  | zero => intro rest ph ds h; exact absurd h (by simp [tryS1])
  | succ K ih =>
    intro rest ph ds h
    rw [tryS1] at h
    cases hg : tryG1 [] (rest.drop (K + 1)) with
    | some r =>
      rw [hg] at h
      exact ⟨K + 1, by rw [hg, Option.some_inj.mp h]⟩
    | none =>
      rw [hg] at h
      exact ih rest ph ds h

theorem matchAt_sound {cs ph ds : List Char} (h : matchAt cs = some (ph, ds)) :
    ∃ r, r <:+ cs ∧ tailMatch r = some ds := by
  rw [matchAt] at h
  cases hs : stripCI ['a', 'v', 'e', 'r', 'a', 'g', 'e'] cs with
  | none => rw [hs] at h; exact absurd h (by simp)
  | some rest =>
    rw [hs] at h
    obtain ⟨k, hk⟩ := tryS1_sound _ rest ph ds h
    obtain ⟨r, hr, hm⟩ := tryG1_sound _ [] ph ds hk
    have hrest : rest <:+ cs :=
      (stripCI_sound _ _ _ hs).elim (fun pre hpre => ⟨pre, hpre.1.symm⟩)
    exact ⟨r, (hr.trans (List.drop_suffix k rest)).trans hrest, hm⟩

theorem searchQ_sound :
    ∀ (l ph ds : List Char), searchQ l = some (ph, ds) →
      ∃ t, t <:+ l ∧ matchAt t = some (ph, ds) := by
  intro l
  induction l with
  | nil => intro ph ds h; exact absurd h (by simp [searchQ])
  | cons c rest ih =>
    intro ph ds h
    rw [searchQ] at h
    cases hm : matchAt (c :: rest) with
    | some r =>
      rw [hm] at h
      exact ⟨c :: rest, List.suffix_rfl, by rw [hm, Option.some_inj.mp h]⟩
    | none =>
      rw [hm] at h
      obtain ⟨t, ht, hmt⟩ := ih ph ds h
      exact ⟨t, ht.trans (List.suffix_cons c rest), hmt⟩

theorem hasPre_self : ∀ (p t : List Char), hasPre p (p ++ t) = true := by
  intro p
  induction p with
  | nil => intro t; rfl
  | cons c p' ih =>
    intro t
    rw [List.cons_append, hasPre]
    simp [ih t]

theorem containsSub_mid : ∀ (a p b : List Char), containsSub p (a ++ (p ++ b)) = true := by
  intro a
  induction a with
  | nil =>
    intro p b
    rw [List.nil_append]
    cases p with
    | nil =>
      cases b with
      | nil => rfl
      | cons x xs => rfl
    | cons q qs =>
      rw [List.cons_append, containsSub, ← List.cons_append, hasPre_self]
      rfl
  | cons x a' ih =>
    intro p b
    rw [List.cons_append, containsSub, ih p b]
    simp

set_option maxRecDepth 10000 in
/-- C3 counterexample: the claim asserts the trailing "year"/"years" word is
optional, so that `"average score for the past 2"` still parses; the
pattern `years?` makes only the final `s` optional and the parse fails. -/
theorem c3_year_word_counterexample :
    parseQuestion "average score for the past 2" = none := by
  with_unfolding_all rfl

set_option maxRecDepth 10000 in
/-- C3 as amended: the Question Parser accepts the case-insensitive pattern
literal `average`, whitespace, a non-greedy captured non-empty phrase,
`for the past`, an integer, and the literal word `year` with only the
trailing `s` optional: every successful parse requires a (case-insensitive)
occurrence of `year` in the question, parsing succeeds with the trimmed
phrase and integer both with `years` and with `year`, and fails when the
year word is omitted. -/
theorem c3_question_pattern :
    (∀ (q : String) (out : String × ℕ), parseQuestion q = some out →
      containsSub yearChars (q.data.map lowerChar) = true) ∧
    parseQuestion "average score for the past 2 years" = some ("score", 2) ∧
    parseQuestion "average score for the past 2 year" = some ("score", 2) ∧
    parseQuestion "average score for the past 2" = none := by
  refine ⟨?_, by with_unfolding_all rfl, by with_unfolding_all rfl, by with_unfolding_all rfl⟩
  intro q out h
  obtain ⟨pr, hpr, _⟩ := Option.map_eq_some'.mp h
  obtain ⟨t, ht, hmt⟩ := searchQ_sound q.data pr.1 pr.2 (by rw [hpr])
  obtain ⟨r, hr, hrm⟩ := matchAt_sound hmt
  obtain ⟨a, p4, b, hre, hp4⟩ := tailMatch_sound hrm
  obtain ⟨u, hu⟩ := hr.trans ht
  have hq : q.data = u ++ (a ++ p4 ++ b) := by rw [← hre, hu]
  rw [hq]
  have : (u ++ (a ++ p4 ++ b)).map lowerChar =
      (u.map lowerChar ++ a.map lowerChar) ++ (yearChars ++ b.map lowerChar) := by
    rw [← hp4]
    simp [List.map_append, List.append_assoc]
  rw [this]
  exact containsSub_mid _ _ _

set_option maxRecDepth 10000 in
/-- Witness for C3's soundness conjunct at a concrete parse. -/
theorem c3_question_pattern_witness :
    containsSub yearChars (("average score for the past 2 years").data.map lowerChar) = true :=
  c3_question_pattern.1 "average score for the past 2 years" ("score", 2)
    (by with_unfolding_all rfl)

set_option maxRecDepth 10000 in
/-- C10 counterexample: the question
`"average average score for the past 2 years"` contains
`"average score for the past 2 years"` as a substring (with text before),
yet the leftmost match captures the phrase `"average score"`, not
`"score"`. -/
theorem c10_search_counterexample :
    parseQuestion "average average score for the past 2 years" = some ("average score", 2) ∧
    parseQuestion "average average score for the past 2 years" ≠ some ("score", 2) := by
  refine ⟨by with_unfolding_all rfl, ?_⟩
  with_unfolding_all decide

set_option maxRecDepth 10000 in
/-- C10 as amended: the parser matches anywhere inside the question
(`re.search`): for every question of the form
`pre ++ "average " ++ phrase ++ " for the past " ++ digits ++ " years" ++ post`
(phrase non-empty and newline-free, digits non-empty) parsing succeeds; the
captured phrase and integer are those of the leftmost match, which coincide
with the embedded ones when no earlier match start exists — e.g.
`"what is the average score for the past 2 years?"` yields `("score", 2)`. -/
theorem c10_search_anywhere :
    (∀ (pre phrase ds post : String), phrase.data ≠ [] →
      (∀ c ∈ phrase.data, c ≠ '\n') → ds.data ≠ [] →
      (∀ c ∈ ds.data, isDigit c = true) →
      (parseQuestion (pre ++ "average " ++ phrase ++ " for the past " ++ ds ++
        " years" ++ post)).isSome) ∧
    parseQuestion "what is the average score for the past 2 years?" = some ("score", 2) := by
  refine ⟨?_, by with_unfolding_all rfl⟩
  intro pre phrase ds post hp hn hd hdd
  have hdata : (pre ++ "average " ++ phrase ++ " for the past " ++ ds ++ " years" ++ post).data
      = pre.data ++ ('a' :: 'v' :: 'e' :: 'r' :: 'a' :: 'g' :: 'e' :: ' ' ::
        (phrase.data ++ (' ' :: 'f' :: 'o' :: 'r' :: ' ' :: 't' :: 'h' :: 'e' :: ' ' ::
          'p' :: 'a' :: 's' :: 't' :: ' ' ::
          (ds.data ++ ' ' :: 'y' :: 'e' :: 'a' :: 'r' :: 's' :: post.data)))) := by
    simp only [String.data_append]
    simp [List.append_assoc]
  have hsq : (searchQ (pre ++ "average " ++ phrase ++ " for the past " ++ ds ++
      " years" ++ post).data).isSome := by
    rw [hdata]
    exact searchQ_complete _ _ (List.suffix_append _ _)
      (matchAt_complete phrase.data _ hp hn
        (by rw [tailMatch_concrete ds.data post.data hd hdd]; rfl))
  rw [parseQuestion]
  obtain ⟨pr, hpr⟩ := Option.isSome_iff_exists.mp hsq
  rw [hpr]
  rfl

set_option maxRecDepth 10000 in
/-- Witness for C10's amended universal conjunct at the spec's example
question. -/
theorem c10_search_anywhere_witness :
    (parseQuestion ("what is the " ++ "average " ++ "score" ++ " for the past " ++ "2" ++
      " years" ++ "?")).isSome :=
  c10_search_anywhere.1 "what is the " "score" "2" "?" (by with_unfolding_all decide)
    (by with_unfolding_all decide) (by with_unfolding_all decide)
    (by with_unfolding_all decide)
